import Mathlib

/-!
Verification of the cross-process durable cache (backend/cache/robust_cache.py).

This file shallowly embeds the `RobustCacheManager` of
`src/backend/cache/robust_cache.py` and settles the specification's claims
about it.

Modelling conventions:

* Python values that can flow through the cache are modelled by `PyVal`
  (`None`, booleans, ints, strings, lists, tuples, dicts with string keys,
  and opaque objects that `msgpack` cannot serialize).
* `msgpack.packb`/`msgpack.unpackb (raw=False)` is modelled by `msgRT`:
  tuples are packed as msgpack arrays and therefore come back as lists;
  ints outside the 64-bit range and opaque objects fail to pack
  (`msgRT = none` models `packb` raising).
* `time.time()` timestamps are modelled as integers (the claims only
  compare timestamps; sub-second resolution plays no role).
* The filesystem is modelled as finite maps: entry files keyed by the cache
  key (the file name is `key + ".msgpack"`, so path equality is key
  equality), tag files keyed by the tag. A file whose write was aborted
  mid-way (truncated by `open(..., "wb")` before `packb` raised) is
  `FileContent.corrupt`: reading it fails to deserialize.
* File locks held by other live processes are modelled by the `busy` set of
  lock-file names: acquiring a lock in `busy` times out, all other
  acquisitions succeed immediately.
* `hashlib.blake2b(...).hexdigest()` is modelled by an injective hex
  encoding of the serialized bytes; the claims depend only on the key
  derivation being a deterministic function of the serialized bytes whose
  output consists of hex digits.
-/

mutual

/-- Model of a Python value as stored in / retrieved from the cache.
`obj` stands for an opaque Python object that `msgpack` cannot serialize. -/
inductive PyVal where
  | none : PyVal
  | bool : Bool → PyVal
  | int : Int → PyVal
  | str : String → PyVal
  | list : PyList → PyVal
  | tuple : PyList → PyVal
  | dict : PyKVs → PyVal
  | obj : Nat → PyVal

inductive PyList where
  | nil : PyList
  | cons : PyVal → PyList → PyList

inductive PyKVs where
  | nil : PyKVs
  | cons : String → PyVal → PyKVs → PyKVs

end

/-- msgpack packs Python ints into at most 64 bits; larger ints raise. -/
def msgpackIntOk (n : Int) : Bool :=
  decide (-(2 ^ 63) ≤ n ∧ n < 2 ^ 64)

mutual

/-- Model of `msgpack.unpackb(msgpack.packb(v, use_bin_type=True), raw=False)`.
`Option.none` models `packb` raising (unserializable object, oversized int).
Tuples are packed as msgpack arrays, hence unpacked as Python lists. -/
def msgRT : PyVal → Option PyVal
  | .none => some .none
  | .bool b => some (.bool b)
  | .int n => if msgpackIntOk n then some (.int n) else Option.none
  | .str s => some (.str s)
  | .list xs => (msgRTList xs).map .list
  | .tuple xs => (msgRTList xs).map .list
  | .dict kvs => (msgRTKVs kvs).map .dict
  | .obj _ => Option.none

def msgRTList : PyList → Option PyList
  | .nil => some .nil
  | .cons x xs =>
    match msgRT x, msgRTList xs with
    | some y, some ys => some (.cons y ys)
    | _, _ => Option.none

def msgRTKVs : PyKVs → Option PyKVs
  | .nil => some .nil
  | .cons k v kvs =>
    match msgRT v, msgRTKVs kvs with
    | some w, some ws => some (.cons k w ws)
    | _, _ => Option.none

end

mutual

/-- Returns `true` when the value contains no tuple anywhere. -/
def tupleFree : PyVal → Bool
  | .none | .bool _ | .int _ | .str _ | .obj _ => true
  | .list xs => tupleFreeList xs
  | .tuple _ => false
  | .dict kvs => tupleFreeKVs kvs

def tupleFreeList : PyList → Bool
  | .nil => true
  | .cons x xs => tupleFree x && tupleFreeList xs

def tupleFreeKVs : PyKVs → Bool
  | .nil => true
  | .cons _ v kvs => tupleFree v && tupleFreeKVs kvs

end

mutual

/-- A tuple-free value that packs at all comes back from msgpack unchanged. -/
theorem msgRT_tupleFree_eq :
    ∀ (v : PyVal), tupleFree v = true → ∀ w, msgRT v = some w → w = v
  | .none, _, w, hw => by simpa [msgRT] using hw.symm
  | .bool b, _, w, hw => by simpa [msgRT] using hw.symm
  | .int n, _, w, hw => by
      by_cases h : msgpackIntOk n = true
      · simpa [msgRT, h] using hw.symm
      · simp [msgRT, h] at hw
  | .str s, _, w, hw => by simpa [msgRT] using hw.symm
  | .list xs, h, w, hw => by
      simp only [msgRT, Option.map_eq_some'] at hw
      obtain ⟨ys, hys, rfl⟩ := hw
      rw [msgRTList_tupleFree_eq xs (by simpa [tupleFree] using h) ys hys]
  | .tuple xs, h, w, hw => by simp [tupleFree] at h
  | .dict kvs, h, w, hw => by
      simp only [msgRT, Option.map_eq_some'] at hw
      obtain ⟨ys, hys, rfl⟩ := hw
      rw [msgRTKVs_tupleFree_eq kvs (by simpa [tupleFree] using h) ys hys]
  | .obj n, _, w, hw => by simp [msgRT] at hw

theorem msgRTList_tupleFree_eq :
    ∀ (xs : PyList), tupleFreeList xs = true → ∀ ys, msgRTList xs = some ys → ys = xs
  | .nil, _, ys, hys => by simpa [msgRTList] using hys.symm
  | .cons x xs, h, ys, hys => by
      simp only [tupleFreeList, Bool.and_eq_true] at h
      simp only [msgRTList] at hys
      cases hx : msgRT x with
      | none => rw [hx] at hys; simp at hys
      | some y =>
        cases hxs : msgRTList xs with
        | none => rw [hx, hxs] at hys; simp at hys
        | some ys' =>
          rw [hx, hxs] at hys
          cases hys
          rw [msgRT_tupleFree_eq x h.1 y hx, msgRTList_tupleFree_eq xs h.2 ys' hxs]

theorem msgRTKVs_tupleFree_eq :
    ∀ (kvs : PyKVs), tupleFreeKVs kvs = true → ∀ ws, msgRTKVs kvs = some ws → ws = kvs
  | .nil, _, ws, hws => by simpa [msgRTKVs] using hws.symm
  | .cons k v kvs, h, ws, hws => by
      simp only [tupleFreeKVs, Bool.and_eq_true] at h
      simp only [msgRTKVs] at hws
      cases hv : msgRT v with
      | none => rw [hv] at hws; simp at hws
      | some w =>
        cases hkvs : msgRTKVs kvs with
        | none => rw [hv, hkvs] at hws; simp at hws
        | some ws' =>
          rw [hv, hkvs] at hws
          cases hws
          rw [msgRT_tupleFree_eq v h.1 w hv, msgRTKVs_tupleFree_eq kvs h.2 ws' hkvs]

end

/-! ## Key codec: `int(key[:4], 16)` and the blake2b hexdigest model -/

/-- Hex digit test, as accepted by Python's `int(s, 16)`. -/
def isHexDigit (c : Char) : Bool :=
  (('0' ≤ c && c ≤ '9') || ('a' ≤ c && c ≤ 'f') || ('A' ≤ c && c ≤ 'F'))

/-- Numeric value of a hex digit character. -/
def hexVal (c : Char) : Nat :=
  if c ≤ '9' then c.toNat - '0'.toNat
  else if c ≤ 'F' then c.toNat - 'A'.toNat + 10
  else c.toNat - 'a'.toNat + 10

/-- Accumulating base-16 evaluation; fails on the first non-hex character. -/
def hexListVal : List Char → Nat → Option Nat
  | [], acc => some acc
  | c :: rest, acc =>
    if isHexDigit c then hexListVal rest (acc * 16 + hexVal c) else Option.none

/-- Python's `int(s, 16)` accepts an optional `0x`/`0X` prefix. -/
def strip0x : List Char → List Char
  | '0' :: 'x' :: r => r
  | '0' :: 'X' :: r => r
  | cs => cs

/-- Magnitude part of `int(s, 16)`: optional `0x` prefix, then a nonempty
run of hex digits. -/
def hexBody (cs : List Char) : Option Nat :=
  match strip0x cs with
  | [] => Option.none
  | cs2 => hexListVal cs2 0

/-- Model of Python's `int(s, 16)`: optional sign, optional `0x` prefix,
nonempty hex digits. (Underscore separators and surrounding whitespace,
which Python also accepts, are not modelled; no cache key exercises them.) -/
def pyIntHex (cs : List Char) : Option Int :=
  if cs.head? = some '-' then (hexBody cs.tail).map (fun n => -(n : Int))
  else if cs.head? = some '+' then (hexBody cs.tail).map (fun n => (n : Int))
  else (hexBody cs).map (fun n => (n : Int))

/-- Model of `int(key[:4], 16)` from `RobustCacheManager._get_shard_path`;
`Option.none` models the `ValueError` escaping to the caller. -/
def parseHex4 (key : String) : Option Int :=
  pyIntHex (key.data.take 4)

/-- Model of `_get_shard_path`: shard id `int(key[:4], 16) % shards` and file name
`key + ".msgpack"`. `Option.none` models the uncaught `ValueError`. -/
def shardPath (shards : Nat) (key : String) : Option (Int × String) :=
  (parseHex4 key).map (fun n => (n % (shards : Int), key ++ ".msgpack"))

/-- Hex digit character for a value below 16 (lowercase, as `hexdigest`). -/
def hexChar (k : Nat) : Char :=
  if k < 10 then Char.ofNat ('0'.toNat + k) else Char.ofNat ('a'.toNat + k - 10)

/-- Fuel-driven digit loop for `natToHex` (structural recursion so that
terms reduce definitionally). -/
def natToHexAux : Nat → Nat → List Char → List Char
  | 0, _, acc => acc
  | fuel + 1, n, acc =>
    if n < 16 then hexChar n :: acc
    else natToHexAux fuel (n / 16) (hexChar (n % 16) :: acc)

/-- Lowercase hex rendering of a natural number. -/
def natToHex (n : Nat) : List Char :=
  natToHexAux (n + 1) n []

/-- Hex encoding of a character sequence (each character rendered as the hex
digits of its code point). Stands in for the blake2b hexdigest: the claims
use only that the digest is a deterministic function of the input bytes
whose characters are hex digits. -/
def hexEncodeL : List Char → List Char
  | [] => []
  | c :: rest => natToHex c.toNat ++ hexEncodeL rest

/-- String version of `hexEncodeL`. -/
def hexEncodeS (s : String) : String :=
  String.mk (hexEncodeL s.data)

mutual

/-- Model of Python's `str()` rendering used by the `_generate_key`
fallback `str((func_name, args, kwargs)).encode()`. Only determinism
matters to the claims; minor formatting liberties (no trailing comma in
singleton tuples, plain quoting) are irrelevant. -/
def pyRepr : PyVal → String
  | .none => "None"
  | .bool true => "True"
  | .bool false => "False"
  | .int n => toString n
  | .str s => String.singleton '\x27' ++ s ++ String.singleton '\x27'
  | .list xs => "[" ++ pyReprList xs ++ "]"
  | .tuple xs => "(" ++ pyReprList xs ++ ")"
  | .dict kvs => "\x7b" ++ pyReprKVs kvs ++ "\x7d"
  | .obj n => "<object at 0x" ++ String.mk (natToHex n) ++ ">"

def pyReprList : PyList → String
  | .nil => ""
  | .cons x .nil => pyRepr x
  | .cons x xs => pyRepr x ++ ", " ++ pyReprList xs

def pyReprKVs : PyKVs → String
  | .nil => ""
  | .cons k v .nil => String.singleton '\x27' ++ k ++ String.singleton '\x27' ++ ": " ++ pyRepr v
  | .cons k v kvs =>
    String.singleton '\x27' ++ k ++ String.singleton '\x27' ++ ": " ++ pyRepr v ++ ", " ++ pyReprKVs kvs

end

/-- Model of `RobustCacheManager._generate_key`: blake2b over
`msgpack.packb((func_name, args, kwargs))`, falling back to
`str((func_name, args, kwargs)).encode()` when `packb` raises
(the logged `serialization_fallback`). The packed bytes are modelled by the
rendering of the msgpack round-trip image (values with equal packed bytes
have equal images). -/
def generateKey (funcName : String) (args : PyList) (kwargs : PyKVs) : String :=
  let identity := PyVal.tuple (.cons (.str funcName) (.cons (.tuple args) (.cons (.dict kwargs) .nil)))
  match msgRT identity with
  | some canon => hexEncodeS (pyRepr canon)
  | Option.none => hexEncodeS (pyRepr identity)

/-! ## Cache state and the `RobustCacheManager` operations -/

/-- The record `set` serializes into an entry file:
`{"value": ..., "expire": ..., "tag": ..., "created": ...}`.
`value` holds the msgpack round-trip image of the stored Python value
(the file holds the packed bytes; `get` unpacks them). -/
structure Entry where
  value : PyVal
  expire : Option Int
  tag : Option String
  created : Int

/-- Contents of an entry file: a well-formed serialized record, or a file
left truncated/partial (e.g. `open(..., "wb")` truncated it and `packb`
then raised), which `unpackb` fails to read. -/
inductive FileContent where
  | record : Entry → FileContent
  | corrupt : FileContent

/-- State of the cache directory tree, plus the lock and log environment:
`entries k` is the file `shard_i/k.msgpack` (`none` = no file),
`tags t` is the file `.tags/t.tags` as a key list,
`busy` is the set of lock-file names currently held by other live
processes (acquisition of these times out), and `logs` collects the
messages the manager logs. -/
structure CacheState where
  entries : String → Option FileContent
  tags : String → Option (List String)
  busy : List String
  logs : List String

/-- Cache state with no entry files and no tag files. -/
def emptyState (busy : List String) : CacheState :=
  { entries := fun _ => Option.none
    tags := fun _ => Option.none
    busy := busy
    logs := [] }

/-- Per `_get_lock_path`, the per-key lock file is named `key + ".lock"`. -/
def lockName (key : String) : String := key ++ ".lock"

/-- Tag-index lock file: `"tag_" + tag + ".lock"`. -/
def tagLockName (tag : String) : String := "tag_" ++ tag ++ ".lock"

/-- Append a log message. -/
def logMsg (s : CacheState) (m : String) : CacheState :=
  { s with logs := s.logs ++ [m] }

/-- Write the entry file for `key`. -/
def putEntry (s : CacheState) (key : String) (c : FileContent) : CacheState :=
  { s with entries := fun k => if k = key then some c else s.entries k }

/-- Model of `cache_file.unlink(missing_ok=True)` for `key`. -/
def eraseEntry (s : CacheState) (key : String) : CacheState :=
  { s with entries := fun k => if k = key then Option.none else s.entries k }

/-- Write the tag-index file for `tag`. -/
def putTag (s : CacheState) (tag : String) (keys : List String) : CacheState :=
  { s with tags := fun t => if t = tag then some keys else s.tags t }

/-- Model of `tag_file.unlink(missing_ok=True)`. -/
def eraseTag (s : CacheState) (tag : String) : CacheState :=
  { s with tags := fun t => if t = tag then Option.none else s.tags t }

/-- Set-insertion semantics of Python's `set.add` on the tag's key set. -/
def insertKeyIfAbsent (key : String) (keys : List String) : List String :=
  if key ∈ keys then keys else keys ++ [key]

/-- The expiry test of `get`:
`if data["expire"] and time.time() > data["expire"]` — note the Python
truthiness: a `None` (and a zero) `expire` field never expires. -/
def expired (e : Option Int) (now : Int) : Bool :=
  match e with
  | Option.none => false
  | some x => if x ≠ 0 ∧ x < now then true else false

/-- The `expire` field `set` stores:
`time.time() + expire if expire else None` — Python truthiness again:
both `None` and `0` store `None`. -/
def expireField (expire : Option Int) (now : Int) : Option Int :=
  match expire with
  | some t => if t ≠ 0 then some (now + t) else Option.none
  | Option.none => Option.none

/-- Model of `RobustCacheManager._add_to_tag(tag, key)`: under the tag lock, load the
key set (empty if the tag file is absent), add `key`, write it back. Every
failure (including the lock timeout) is caught and logged inside. -/
def addToTag (s : CacheState) (tag : String) (key : String) : CacheState :=
  if tagLockName tag ∈ s.busy then logMsg s "tag_index_update_failed"
  else putTag s tag (insertKeyIfAbsent key ((s.tags tag).getD []))

/-- Model of `RobustCacheManager.get(key)`. `Except.error` models an exception
escaping to the caller: `_get_shard_path` runs before the `try` block, so
its `ValueError` on a key whose first characters do not parse as hex is
not caught. Inside the `try`, a lock timeout and every other failure
degrade to `None` (a miss). An expired entry is deleted as a side effect. -/
def robustGet (shards : Nat) (s : CacheState) (now : Int) (key : String) :
    Except String (PyVal × CacheState) :=
  match shardPath shards key with
  | Option.none => .error "ValueError"
  | some _ =>
    match s.entries key with
    | Option.none => .ok (.none, s)
    | some _ =>
      if lockName key ∈ s.busy then .ok (.none, logMsg s "cache_get_timeout")
      else
        match s.entries key with
        | Option.none => .ok (.none, s)
        | some .corrupt => .ok (.none, logMsg s "cache_get_failed")
        | some (.record e) =>
          if expired e.expire now then .ok (.none, eraseEntry s key)
          else .ok (e.value, s)

/-- Model of `RobustCacheManager.set(key, value, expire, tag)`. `_get_shard_path`
runs before the `try` block (uncaught `ValueError` for non-hex keys); a
lock timeout silently drops the write; `open(..., "wb")` truncates the
file before `packb` runs, so a serialization failure leaves a corrupt
file; on success the record is written and, when a (truthy) tag was given,
the tag index is updated. -/
def robustSet (shards : Nat) (s : CacheState) (now : Int) (key : String)
    (v : PyVal) (expire : Option Int) (tag : Option String) :
    Except String CacheState :=
  match shardPath shards key with
  | Option.none => .error "ValueError"
  | some _ =>
    if lockName key ∈ s.busy then .ok (logMsg s "cache_set_timeout")
    else
      match msgRT v with
      | Option.none => .ok (logMsg (putEntry s key .corrupt) "cache_set_failed")
      | some rt =>
        let s1 := putEntry s key (.record ⟨rt, expireField expire now, tag, now⟩)
        match tag with
        | some t => if t ≠ "" then .ok (addToTag s1 t key) else .ok s1
        | Option.none => .ok s1

/-- The deletion loop of `invalidate_tag`: for each key in the tag file,
`_get_shard_path(key).unlink(missing_ok=True)`. A key whose prefix fails
to parse raises mid-loop (caught by the surrounding `except`), leaving the
earlier deletions in place; the `Bool` reports whether the loop finished. -/
def unlinkKeys : List String → (String → Option FileContent) →
    (String → Option FileContent) × Bool
  | [], es => (es, true)
  | k :: ks, es =>
    match parseHex4 k with
    | Option.none => (es, false)
    | some _ => unlinkKeys ks (fun x => if x = k then Option.none else es x)

/-- Model of `RobustCacheManager.invalidate_tag(tag)`: a missing tag file is a
no-op; under the tag lock, delete every entry file listed in the tag file,
then delete the tag file. All failures are caught and logged. -/
def robustInvalidateTag (s : CacheState) (tag : String) : CacheState :=
  match s.tags tag with
  | Option.none => s
  | some keys =>
    if tagLockName tag ∈ s.busy then logMsg s "tag_invalidation_failed"
    else
      match unlinkKeys keys s.entries with
      | (es, true) => logMsg (eraseTag { s with entries := es } tag) "tag_invalidated"
      | (es, false) => logMsg { s with entries := es } "tag_invalidation_failed"

/-- One call of a `memoize(expire, tag)`-wrapped coroutine: derive the key
from the function name and arguments, try `get`; on a non-`None` cached
value return it, otherwise invoke the function, `set` the result, and
return it. The `Bool` records whether the wrapped function was invoked. -/
def memoizeCall (shards : Nat) (s : CacheState) (now : Int)
    (funcName : String) (args : PyList) (kwargs : PyKVs)
    (f : PyList → PyVal) (expire : Int) (tag : Option String) :
    Except String (PyVal × CacheState × Bool) :=
  match robustGet shards s now (generateKey funcName args kwargs) with
  | .error e => .error e
  | .ok (cached, s1) =>
    match cached with
    | .none =>
      match robustSet shards s1 now (generateKey funcName args kwargs) (f args) (some expire) tag with
      | .error e => .error e
      | .ok s2 => .ok (f args, s2, true)
    | v => .ok (v, s1, false)

/-! ## Helper lemmas: generated keys always parse as hex -/

theorem hexChar_isHex {k : Nat} (h : k < 16) : isHexDigit (hexChar k) = true := by
  interval_cases k <;> decide

theorem natToHexAux_allHex :
    ∀ (fuel n : Nat) (acc : List Char), acc.all isHexDigit = true →
      (natToHexAux fuel n acc).all isHexDigit = true := by
  intro fuel
  induction fuel with
  | zero => intro n acc h; simpa [natToHexAux] using h
  | succ fuel ih =>
    intro n acc h
    simp only [natToHexAux]
    by_cases hn : n < 16
    · simp [hn, List.all_cons, hexChar_isHex hn, h]
    · rw [if_neg hn]
      exact ih _ _ (by simp [List.all_cons, hexChar_isHex (Nat.mod_lt _ (by omega)), h])

theorem natToHex_allHex (n : Nat) : (natToHex n).all isHexDigit = true :=
  natToHexAux_allHex _ _ _ rfl

theorem natToHexAux_ne_nil :
    ∀ (fuel n : Nat) (acc : List Char), acc ≠ [] → natToHexAux fuel n acc ≠ [] := by
  intro fuel
  induction fuel with
  | zero => intro n acc h; simpa [natToHexAux] using h
  | succ fuel ih =>
    intro n acc h
    simp only [natToHexAux]
    by_cases hn : n < 16
    · simp [hn]
    · rw [if_neg hn]
      exact ih _ _ (by simp)

theorem natToHex_ne_nil (n : Nat) : natToHex n ≠ [] := by
  unfold natToHex
  simp only [natToHexAux]
  by_cases hn : n < 16
  · simp [hn]
  · rw [if_neg hn]
    exact natToHexAux_ne_nil _ _ _ (by simp)

theorem hexEncodeL_allHex : ∀ cs : List Char, (hexEncodeL cs).all isHexDigit = true := by
  intro cs
  induction cs with
  | nil => rfl
  | cons c rest ih => simp [hexEncodeL, List.all_append, natToHex_allHex, ih]

theorem hexEncodeL_ne_nil {cs : List Char} (h : cs ≠ []) : hexEncodeL cs ≠ [] := by
  cases cs with
  | nil => exact absurd rfl h
  | cons c rest =>
    simp only [hexEncodeL, ne_eq, List.append_eq_nil]
    intro hc
    exact natToHex_ne_nil _ hc.1

theorem hexListVal_isSome :
    ∀ (cs : List Char) (acc : Nat), cs.all isHexDigit = true →
      ∃ m, hexListVal cs acc = some m := by
  intro cs
  induction cs with
  | nil => intro acc _; exact ⟨acc, rfl⟩
  | cons c rest ih =>
    intro acc h
    simp only [List.all_cons, Bool.and_eq_true] at h
    simpa [hexListVal, h.1] using ih (acc * 16 + hexVal c) h.2

theorem strip0x_of_allHex {cs : List Char} (h : cs.all isHexDigit = true) :
    strip0x cs = cs := by
  unfold strip0x
  split
  · exfalso
    simp only [List.all_cons, Bool.and_eq_true] at h
    exact absurd h.2.1 (by decide)
  · exfalso
    simp only [List.all_cons, Bool.and_eq_true] at h
    exact absurd h.2.1 (by decide)
  · rfl

theorem pyIntHex_of_allHex {cs : List Char} (hne : cs ≠ [])
    (h : cs.all isHexDigit = true) : ∃ n, pyIntHex cs = some n := by
  cases cs with
  | nil => exact absurd rfl hne
  | cons c rest =>
    have hc : isHexDigit c = true := by
      simp only [List.all_cons, Bool.and_eq_true] at h
      exact h.1
    have hminus : c ≠ '-' := by intro hh; subst hh; exact absurd hc (by decide)
    have hplus : c ≠ '+' := by intro hh; subst hh; exact absurd hc (by decide)
    have hbody : ∃ m, hexBody (c :: rest) = some m := by
      unfold hexBody
      rw [strip0x_of_allHex h]
      obtain ⟨m, hm⟩ := hexListVal_isSome (c :: rest) 0 h
      exact ⟨m, hm⟩
    obtain ⟨m, hm⟩ := hbody
    refine ⟨(m : Int), ?_⟩
    unfold pyIntHex
    rw [if_neg (by simp [hminus]), if_neg (by simp [hplus])]
    simp [hm]

theorem parseHex4_of_hexEncode {cs : List Char} (hne : cs ≠ []) :
    ∃ n, parseHex4 (String.mk (hexEncodeL cs)) = some n := by
  unfold parseHex4
  have hdata : (String.mk (hexEncodeL cs)).data = hexEncodeL cs := rfl
  rw [hdata]
  apply pyIntHex_of_allHex
  · have := hexEncodeL_ne_nil hne
    cases h : hexEncodeL cs with
    | nil => exact absurd h this
    | cons a l => simp [List.take]
  · have hall := hexEncodeL_allHex cs
    rw [List.all_eq_true] at hall ⊢
    intro x hx
    exact hall x (List.take_subset _ _ hx)

theorem string_append_data (s t : String) : (s ++ t).data = s.data ++ t.data := rfl

theorem pyRepr_list_ne_empty (xs : PyList) : (pyRepr (PyVal.list xs)).data ≠ [] := by
  show ("[" ++ pyReprList xs ++ "]").data ≠ []
  rw [string_append_data, string_append_data]
  simp

theorem pyRepr_tuple_ne_empty (xs : PyList) : (pyRepr (PyVal.tuple xs)).data ≠ [] := by
  show ("(" ++ pyReprList xs ++ ")").data ≠ []
  rw [string_append_data, string_append_data]
  simp

/-- Parsing with `parseHex4` succeeds on any hex-encoded string. -/
theorem parseHex4_hexEncodeS {s : String} (h : s.data ≠ []) :
    ∃ n, parseHex4 (hexEncodeS s) = some n :=
  parseHex4_of_hexEncode h

/-- Every key `_generate_key` produces parses as hex in `_get_shard_path`
(as a genuine blake2b hexdigest would): `get`/`set` on a memoized key never
hit the uncaught `ValueError`. -/
theorem parseHex4_generateKey (funcName : String) (args : PyList) (kwargs : PyKVs) :
    ∃ n, parseHex4 (generateKey funcName args kwargs) = some n := by
  simp only [generateKey]
  cases hrt : msgRT (PyVal.tuple (.cons (.str funcName) (.cons (.tuple args) (.cons (.dict kwargs) .nil)))) with
  | none => exact parseHex4_hexEncodeS (pyRepr_tuple_ne_empty _)
  | some canon =>
    have hlist : ∃ ys, canon = PyVal.list ys := by
      simp only [msgRT] at hrt
      rw [Option.map_eq_some'] at hrt
      obtain ⟨ys, _, hcanon⟩ := hrt
      exact ⟨ys, hcanon.symm⟩
    obtain ⟨ys, rfl⟩ := hlist
    exact parseHex4_hexEncodeS (pyRepr_list_ne_empty _)

/-! ## Stale-lock sweep (`_cleanup_stale_locks`) -/

/-- State of the `.locks` directory: the lock files present (name and
last-modified time) and the set of lock files whose lock is currently held
by a live process. -/
structure LockDirState where
  lockFiles : List (String × Int)
  held : List String

/-- Model of `FileLock(path).acquire(blocking=False)`: succeeds exactly when no live
process holds the lock. -/
def tryAcquire (held : List String) (name : String) : Bool :=
  decide (name ∉ held)

/-- Model of `RobustCacheManager._cleanup_stale_locks`: for every `*.lock` file, try
a non-blocking acquire; on success release and delete the file, on
`Timeout`/`OSError` leave it alone. Note: the source applies no age
threshold to the files it sweeps. -/
def cleanupStaleLocks (s : LockDirState) : LockDirState :=
  { s with lockFiles := s.lockFiles.filter (fun p => !tryAcquire s.held p.1) }

/-! ## The in-place file write of `set` (micro-step view for atomicity) -/

/-- Step one of the write: `open(cache_file, "wb")` truncates the file in place (creating it if
absent) before anything is written. -/
def truncateOnOpenWb : Option String → Option String :=
  fun _ => some ""

/-- Step two of the write: `f.write(msgpack.packb(data, use_bin_type=True))` replaces the
(already truncated) contents with the packed record bytes. -/
def writeBytes (bytes : String) : Option String → Option String :=
  fun _ => some bytes

/-- The successive on-disk contents of the shard file during
`set`'s write: before, after `open(..., "wb")` truncated it, and after
`f.write` completed. An observer that reads the file between the two steps
(or after a crash between them) sees the middle state. -/
def setFileObservations (before : Option String) (bytes : String) : List (Option String) :=
  [before, truncateOnOpenWb before, writeBytes bytes (truncateOnOpenWb before)]

/-! ## Projection lemmas for the cache operations -/

theorem putEntry_entries_same (s : CacheState) (key : String) (c : FileContent) :
    (putEntry s key c).entries key = some c := by
  simp [putEntry]

theorem putEntry_entries_other (s : CacheState) {key k : String} (c : FileContent)
    (h : k ≠ key) : (putEntry s key c).entries k = s.entries k := by
  simp [putEntry, h]

theorem addToTag_entries (s : CacheState) (tag key : String) :
    (addToTag s tag key).entries = s.entries := by
  unfold addToTag
  split <;> simp [logMsg, putTag]

theorem addToTag_busy (s : CacheState) (tag key : String) :
    (addToTag s tag key).busy = s.busy := by
  unfold addToTag
  split <;> simp [logMsg, putTag]

/-- Successful `set` without a tag: the entry file now holds the complete
new record, everything else is untouched. -/
theorem robustSet_ok_noTag (shards : Nat) (s : CacheState) (now : Int)
    {key : String} {n : Int} (v : PyVal) {rt : PyVal} (expire : Option Int)
    (hk : parseHex4 key = some n) (hl : lockName key ∉ s.busy)
    (hv : msgRT v = some rt) :
    robustSet shards s now key v expire Option.none =
      .ok (putEntry s key (.record ⟨rt, expireField expire now, Option.none, now⟩)) := by
  unfold robustSet shardPath
  rw [hk]
  simp only [Option.map_some']
  rw [if_neg hl, hv]

/-- Successful `set` with a (truthy) tag: the entry file holds the complete
new record and the tag index gained the key. -/
theorem robustSet_ok_tag (shards : Nat) (s : CacheState) (now : Int)
    {key : String} {n : Int} (v : PyVal) {rt : PyVal} (expire : Option Int)
    {t : String} (hk : parseHex4 key = some n) (hl : lockName key ∉ s.busy)
    (hv : msgRT v = some rt) (ht : t ≠ "") :
    robustSet shards s now key v expire (some t) =
      .ok (addToTag (putEntry s key (.record ⟨rt, expireField expire now, some t, now⟩)) t key) := by
  unfold robustSet shardPath
  rw [hk]
  simp only [Option.map_some']
  rw [if_neg hl, hv]
  simp [ht]

/-- A `get` on a key whose `_get_shard_path` parse fails raises. -/
theorem robustGet_raises (shards : Nat) (s : CacheState) (now : Int)
    {key : String} (hk : parseHex4 key = Option.none) :
    robustGet shards s now key = .error "ValueError" := by
  unfold robustGet shardPath
  rw [hk]
  rfl

/-- A `set` on a key whose `_get_shard_path` parse fails raises. -/
theorem robustSet_raises (shards : Nat) (s : CacheState) (now : Int)
    {key : String} (v : PyVal) (expire : Option Int) (tag : Option String)
    (hk : parseHex4 key = Option.none) :
    robustSet shards s now key v expire tag = .error "ValueError" := by
  unfold robustSet shardPath
  rw [hk]
  rfl

/-- A `get` on an absent entry file: a plain miss, state unchanged. -/
theorem robustGet_absent (shards : Nat) (s : CacheState) (now : Int)
    {key : String} {n : Int} (hk : parseHex4 key = some n)
    (he : s.entries key = Option.none) :
    robustGet shards s now key = .ok (.none, s) := by
  unfold robustGet shardPath
  rw [hk]
  simp only [Option.map_some']
  rw [he]

/-- A `get` under a lock timeout: a miss, the timeout is logged. -/
theorem robustGet_timeout (shards : Nat) (s : CacheState) (now : Int)
    {key : String} {n : Int} {c : FileContent} (hk : parseHex4 key = some n)
    (he : s.entries key = some c) (hl : lockName key ∈ s.busy) :
    robustGet shards s now key = .ok (.none, logMsg s "cache_get_timeout") := by
  unfold robustGet shardPath
  rw [hk]
  simp only [Option.map_some']
  rw [he, if_pos hl]

/-- A `get` of a live (unexpired) record returns its value, state unchanged. -/
theorem robustGet_hit (shards : Nat) (s : CacheState) (now : Int)
    {key : String} {n : Int} {e : Entry} (hk : parseHex4 key = some n)
    (he : s.entries key = some (.record e)) (hl : lockName key ∉ s.busy)
    (hx : expired e.expire now = false) :
    robustGet shards s now key = .ok (e.value, s) := by
  unfold robustGet shardPath
  rw [hk]
  simp only [Option.map_some']
  rw [he, if_neg hl]
  simp [hx]

/-- A `get` of an expired record: a miss, and the entry file is deleted. -/
theorem robustGet_expired (shards : Nat) (s : CacheState) (now : Int)
    {key : String} {n : Int} {e : Entry} (hk : parseHex4 key = some n)
    (he : s.entries key = some (.record e)) (hl : lockName key ∉ s.busy)
    (hx : expired e.expire now = true) :
    robustGet shards s now key = .ok (.none, eraseEntry s key) := by
  unfold robustGet shardPath
  rw [hk]
  simp only [Option.map_some']
  rw [he, if_neg hl]
  simp [hx]

/-! ## Claims -/

/-- C2 counterexample: `_cleanup_stale_locks` applies no age threshold.
A lock file whose age at sweep time is `0` (far below any `max_age`, e.g.
300) and that has no live holder is nevertheless deleted by the sweep,
contradicting "deletes a lock file only if its last-modified time exceeds
`max_age`". -/
theorem C2_fresh_lock_swept :
    (cleanupStaleLocks ⟨[("a.lock", 100)], []⟩).lockFiles = [] ∧
    ((100 : Int) - 100 ≤ 300) := by
  constructor
  · rfl
  · decide

/-- C2 (amended): the sweep in `_cleanup_stale_locks` keeps exactly the
lock files whose non-blocking acquire fails (a live holder exists); it
deletes every other lock file regardless of age. In particular a lock file
genuinely held by a live process is never removed, and every unheld lock
file — stale or fresh — is removed. -/
theorem C2_sweep_amended (s : LockDirState) (p : String × Int) :
    p ∈ (cleanupStaleLocks s).lockFiles ↔ p ∈ s.lockFiles ∧ p.1 ∈ s.held := by
  simp [cleanupStaleLocks, List.mem_filter, tryAcquire]

/-- C3: the claim says `get`/`set` never raise for any string key; but
`_get_shard_path` (`int(key[:4], 16)`) runs before the `try` block in both
`get` and `set`, so a key whose first characters are not hex digits (such
as the key `"key1"` used by the repository's own tests) raises a
`ValueError` to the caller instead of degrading to a miss / no-op. -/
theorem C3_nonhex_key_raises :
    robustGet 8 (emptyState []) 100 "key1" = .error "ValueError" ∧
    robustSet 8 (emptyState []) 100 "key1" (PyVal.int 1) Option.none Option.none =
      .error "ValueError" := by
  exact ⟨rfl, rfl⟩

/-- C6: when acquiring the per-key lock times out, `get` returns a miss
(`None`) and `set` silently drops the write; in both cases the timeout is
logged (`cache_get_timeout` / `cache_set_timeout`) and no exception
reaches the caller (`Except.ok`), and the dropped write changes no entry
file and no tag file. -/
theorem C6_lock_timeout_degrades (shards : Nat) (s : CacheState) (now : Int)
    {key : String} {n : Int} {c : FileContent} (v : PyVal) (expire : Option Int)
    (tag : Option String) (hk : parseHex4 key = some n)
    (he : s.entries key = some c) (hl : lockName key ∈ s.busy) :
    robustGet shards s now key = .ok (PyVal.none, logMsg s "cache_get_timeout") ∧
    robustSet shards s now key v expire tag = .ok (logMsg s "cache_set_timeout") ∧
    (logMsg s "cache_set_timeout").entries = s.entries ∧
    (logMsg s "cache_set_timeout").tags = s.tags := by
  refine ⟨robustGet_timeout shards s now hk he hl, ?_, rfl, rfl⟩
  unfold robustSet shardPath
  rw [hk]
  simp only [Option.map_some']
  rw [if_pos hl]

/-- Entry state used by the C6 witness: an entry for `"abcd"` exists and the
per-key lock is held elsewhere. -/
def c6State : CacheState :=
  putEntry (emptyState [lockName "abcd"]) "abcd"
    (.record ⟨PyVal.int 1, Option.none, Option.none, 50⟩)

theorem C6_lock_timeout_witness :
    robustGet 8 c6State 100 "abcd" = .ok (PyVal.none, logMsg c6State "cache_get_timeout") ∧
    robustSet 8 c6State 100 "abcd" (PyVal.int 2) Option.none Option.none =
      .ok (logMsg c6State "cache_set_timeout") ∧
    (logMsg c6State "cache_set_timeout").entries = c6State.entries ∧
    (logMsg c6State "cache_set_timeout").tags = c6State.tags :=
  C6_lock_timeout_degrades 8 c6State 100 (PyVal.int 2) Option.none Option.none
    (n := 43981) (c := .record ⟨PyVal.int 1, Option.none, Option.none, 50⟩)
    rfl rfl (by simp [c6State, putEntry, emptyState, lockName])

/-- C8 counterexample: the claim says the shard file always holds either
the complete previous record or the complete new record. But `set` writes
with `open(cache_file, "wb")` followed by `f.write(...)`: between the
truncation performed by `open` and the `write`, the file holds neither —
an observer (or a crash) at that point sees a truncated file. -/
theorem C8_partial_write_observable :
    some "" ∈ setFileObservations (some "oldrecord") "newrecord" ∧
    ("" : String) ≠ "oldrecord" ∧ ("" : String) ≠ "newrecord" := by
  refine ⟨?_, ?_, ?_⟩ <;> decide

/-- C8 (amended): the write is an in-place truncate-then-write, not an
atomic replacement (see the counterexample); under the per-key lock
discipline, however, every completed `set` leaves the shard file holding
exactly the complete new record, touches no other key's file, and a
subsequent (lock-respecting) read of an unexpired entry returns the
complete stored value. -/
theorem C8_locked_write_complete (shards : Nat) (s : CacheState) (now now2 : Int)
    (key : String) {n : Int} (v : PyVal) {rt : PyVal} (expire : Option Int)
    (hk : parseHex4 key = some n) (hl : lockName key ∉ s.busy)
    (hv : msgRT v = some rt) {s1 : CacheState}
    (hset : robustSet shards s now key v expire Option.none = .ok s1)
    (hx : expired (expireField expire now) now2 = false) :
    s1.entries key = some (.record ⟨rt, expireField expire now, Option.none, now⟩) ∧
    (∀ k, k ≠ key → s1.entries k = s.entries k) ∧
    robustGet shards s1 now2 key = .ok (rt, s1) := by
  rw [robustSet_ok_noTag shards s now v expire hk hl hv] at hset
  cases hset
  refine ⟨putEntry_entries_same s key _, ?_, ?_⟩
  · intro k hkne
    exact putEntry_entries_other s _ hkne
  · exact robustGet_hit shards _ now2 hk (putEntry_entries_same s key _) hl hx

theorem C8_locked_write_witness :
    (putEntry (emptyState []) "abcd"
        (.record ⟨PyVal.int 7, Option.none, Option.none, 100⟩)).entries "abcd" =
      some (.record ⟨PyVal.int 7, Option.none, Option.none, 100⟩) ∧
    (∀ k, k ≠ "abcd" →
      (putEntry (emptyState []) "abcd"
          (.record ⟨PyVal.int 7, Option.none, Option.none, 100⟩)).entries k =
        (emptyState []).entries k) ∧
    robustGet 8 (putEntry (emptyState []) "abcd"
        (.record ⟨PyVal.int 7, Option.none, Option.none, 100⟩)) 200 "abcd" =
      .ok (PyVal.int 7, putEntry (emptyState []) "abcd"
        (.record ⟨PyVal.int 7, Option.none, Option.none, 100⟩)) :=
  C8_locked_write_complete 8 (emptyState []) 100 200 "abcd" (PyVal.int 7) Option.none
    (n := 43981) rfl (by simp [emptyState]) rfl rfl rfl

/-- Entry state produced by `set("abcd", 5, expire=-1)` at time 100. -/
def c9State : CacheState :=
  match robustSet 8 (emptyState []) 100 "abcd" (PyVal.int 5) (some (-1)) Option.none with
  | .ok s => s
  | .error _ => emptyState []

/-- C9 counterexample: the claim says only a strictly positive `expire`
produces an absolute expiry timestamp. But `expire = -1` (not strictly
positive) is truthy in Python, so `set` stores `expire = now + (-1) = 99`
— an absolute timestamp already in the past — and the very next `get` (at
the same time 100) returns a miss instead of the value. -/
theorem C9_negative_expire_counterexample :
    c9State.entries "abcd" =
      some (.record ⟨PyVal.int 5, some 99, Option.none, 100⟩) ∧
    robustGet 8 c9State 100 "abcd" = .ok (PyVal.none, eraseEntry c9State "abcd") := by
  exact ⟨rfl, rfl⟩

/-- C9 (amended): `set(k, v, expire=0)` stores an entry whose `expire`
field is `None` — a zero TTL means "never expires", so `get(k)` at any
later time still returns `v`; and any nonzero `expire` (positive or
negative, both truthy in Python) produces the absolute timestamp
`now + expire`. -/
theorem C9_zero_ttl_amended (shards : Nat) (s : CacheState) (now now2 : Int)
    (key : String) {n : Int} (v : PyVal)
    (hk : parseHex4 key = some n) (hl : lockName key ∉ s.busy)
    (hv : msgRT v = some v) {s1 : CacheState}
    (hset : robustSet shards s now key v (some 0) Option.none = .ok s1) :
    s1.entries key = some (.record ⟨v, Option.none, Option.none, now⟩) ∧
    robustGet shards s1 now2 key = .ok (v, s1) ∧
    (∀ t : Int, t ≠ 0 → expireField (some t) now = some (now + t)) := by
  rw [robustSet_ok_noTag shards s now v (some 0) hk hl hv] at hset
  cases hset
  have hfield : expireField (some 0) now = Option.none := by simp [expireField]
  refine ⟨?_, ?_, ?_⟩
  · rw [hfield] at *
    simpa [hfield] using putEntry_entries_same s key _
  · have he := putEntry_entries_same s key
      (.record ⟨v, expireField (some 0) now, Option.none, now⟩)
    rw [hfield] at he
    have := robustGet_hit shards
      (putEntry s key (.record ⟨v, expireField (some 0) now, Option.none, now⟩)) now2
      hk he hl (by rfl)
    simpa [hfield] using this
  · intro t ht
    simp [expireField, ht]

theorem C9_zero_ttl_witness :
    (putEntry (emptyState []) "abcd"
        (.record ⟨PyVal.int 5, Option.none, Option.none, 100⟩)).entries "abcd" =
      some (.record ⟨PyVal.int 5, Option.none, Option.none, 100⟩) ∧
    robustGet 8 (putEntry (emptyState []) "abcd"
        (.record ⟨PyVal.int 5, Option.none, Option.none, 100⟩)) 1000000 "abcd" =
      .ok (PyVal.int 5, putEntry (emptyState []) "abcd"
        (.record ⟨PyVal.int 5, Option.none, Option.none, 100⟩)) ∧
    (∀ t : Int, t ≠ 0 → expireField (some t) 100 = some (100 + t)) :=
  C9_zero_ttl_amended 8 (emptyState []) 100 1000000 "abcd" (PyVal.int 5)
    (n := 43981) rfl (by simp [emptyState]) rfl rfl

/-- C4: lazy expiry. For a key set with TTL `t > 0` at time `now1`, a `get`
invoked strictly more than `t` seconds later (`now1 + t < now2`) returns a
miss — even though no write or sweep ran in between — and, as a side
effect of that expired read, the entry file is deleted. -/
theorem C4_lazy_expiry (shards : Nat) (s : CacheState) (now1 now2 t : Int)
    (key : String) {n : Int} (v : PyVal) {rt : PyVal}
    (hk : parseHex4 key = some n) (hl : lockName key ∉ s.busy)
    (hv : msgRT v = some rt) (ht : 0 < t) (hnow : 0 ≤ now1)
    (helapsed : now1 + t < now2) {s1 : CacheState}
    (hset : robustSet shards s now1 key v (some t) Option.none = .ok s1) :
    robustGet shards s1 now2 key = .ok (PyVal.none, eraseEntry s1 key) ∧
    (eraseEntry s1 key).entries key = Option.none := by
  rw [robustSet_ok_noTag shards s now1 v (some t) hk hl hv] at hset
  cases hset
  have hfield : expireField (some t) now1 = some (now1 + t) := by
    simp [expireField, show t ≠ 0 by omega]
  constructor
  · apply robustGet_expired shards _ now2 hk (putEntry_entries_same s key _) hl
    rw [hfield]
    simp only [expired]
    rw [if_pos ⟨by omega, helapsed⟩]
  · simp [eraseEntry]

theorem C4_lazy_expiry_witness :
    robustGet 8 (putEntry (emptyState []) "abcd"
        (.record ⟨PyVal.int 5, expireField (some 1) 100, Option.none, 100⟩)) 102 "abcd" =
      .ok (PyVal.none, eraseEntry (putEntry (emptyState []) "abcd"
        (.record ⟨PyVal.int 5, expireField (some 1) 100, Option.none, 100⟩)) "abcd") ∧
    (eraseEntry (putEntry (emptyState []) "abcd"
        (.record ⟨PyVal.int 5, expireField (some 1) 100, Option.none, 100⟩)) "abcd").entries "abcd" =
      Option.none :=
  C4_lazy_expiry 8 (emptyState []) 100 102 1 "abcd" (PyVal.int 5)
    (n := 43981) rfl (by simp [emptyState]) rfl (by decide) (by decide) (by decide) rfl

/-- The pair `(1, 2)` as a `PyList`, for the C1 counterexample. -/
def tupVal : PyList := .cons (.int 1) (.cons (.int 2) .nil)

/-- Cache state after `set("abcd", (1, 2))` at time 100. -/
def c1State : CacheState :=
  match robustSet 8 (emptyState []) 100 "abcd" (PyVal.tuple tupVal) Option.none Option.none with
  | .ok s => s
  | .error _ => emptyState []

/-- C1 counterexample: the round-trip is not exact for tuples. After
`set("abcd", (1, 2))`, `get("abcd")` returns the *list* `[1, 2]` — msgpack
packs tuples as arrays and `unpackb` returns them as lists — which is not
identical to the stored tuple, contradicting "returns v exactly ...
including tuples". -/
theorem C1_tuple_counterexample :
    robustGet 8 c1State 100 "abcd" = .ok (PyVal.list tupVal, c1State) ∧
    PyVal.list tupVal ≠ PyVal.tuple tupVal := by
  constructor
  · rfl
  · intro h
    exact PyVal.noConfusion h

/-- C1 (amended): for every msgpack-serializable value `v` that contains no
tuple, `get(k)` after `set(k, v)` with no intervening expiry or
invalidation returns `v` exactly (dicts and lists round-trip losslessly at
any nesting depth); values containing tuples come back with the tuples
turned into lists. -/
theorem C1_roundtrip_amended (shards : Nat) (s : CacheState) (now now2 : Int)
    (key : String) {n : Int} (v : PyVal)
    (hk : parseHex4 key = some n) (hl : lockName key ∉ s.busy)
    (htf : tupleFree v = true) {rt : PyVal} (hv : msgRT v = some rt)
    {s1 : CacheState}
    (hset : robustSet shards s now key v Option.none Option.none = .ok s1) :
    robustGet shards s1 now2 key = .ok (v, s1) := by
  have hrtv : rt = v := msgRT_tupleFree_eq v htf rt hv
  rw [hrtv] at hv
  rw [robustSet_ok_noTag shards s now v Option.none hk hl hv] at hset
  cases hset
  exact robustGet_hit shards _ now2 hk (putEntry_entries_same s key _) hl rfl

/-- The nested structured value `{"x": [1, "y"], "z": None}` used by the
C1 witness. -/
def nestedVal : PyVal :=
  .dict (.cons "x" (.list (.cons (.int 1) (.cons (.str "y") .nil)))
    (.cons "z" .none .nil))

theorem C1_roundtrip_witness :
    robustGet 8 (putEntry (emptyState []) "abcd"
        (.record ⟨nestedVal, expireField Option.none 100, Option.none, 100⟩)) 999 "abcd" =
      .ok (nestedVal, putEntry (emptyState []) "abcd"
        (.record ⟨nestedVal, expireField Option.none 100, Option.none, 100⟩)) :=
  C1_roundtrip_amended 8 (emptyState []) 100 999 "abcd" nestedVal
    (n := 43981) rfl (by simp [emptyState]) rfl rfl rfl

/-- A `get` of a corrupt (truncated / undeserializable) entry file: the
`unpackb` failure is caught, logged, and surfaced as a miss. -/
theorem robustGet_corrupt (shards : Nat) (s : CacheState) (now : Int)
    {key : String} {n : Int} (hk : parseHex4 key = some n)
    (he : s.entries key = some .corrupt) (hl : lockName key ∉ s.busy) :
    robustGet shards s now key = .ok (PyVal.none, logMsg s "cache_get_failed") := by
  unfold robustGet shardPath
  rw [hk]
  simp only [Option.map_some']
  rw [he, if_neg hl]

/-- On a key that parses, `get` either returns a miss (`None`) or returns
the complete value of a live stored record with the state unchanged. -/
theorem robustGet_classify (shards : Nat) (s : CacheState) (now : Int)
    (key : String) {n : Int} (hk : parseHex4 key = some n) :
    (∃ s', robustGet shards s now key = .ok (PyVal.none, s')) ∨
    (∃ e, s.entries key = some (.record e) ∧
      robustGet shards s now key = .ok (e.value, s)) := by
  cases hent : s.entries key with
  | none => exact Or.inl ⟨s, robustGet_absent shards s now hk hent⟩
  | some c =>
    by_cases hl : lockName key ∈ s.busy
    · exact Or.inl ⟨_, robustGet_timeout shards s now hk hent hl⟩
    · cases c with
      | corrupt => exact Or.inl ⟨_, robustGet_corrupt shards s now hk hent hl⟩
      | record e =>
        by_cases hx : expired e.expire now = true
        · exact Or.inl ⟨_, robustGet_expired shards s now hk hent hl hx⟩
        · exact Or.inr ⟨e, rfl, robustGet_hit shards s now hk hent hl
            (by simpa using hx)⟩

/-- On a key that parses, `set` never raises: every internal failure path
(lock timeout, serialization failure) is caught inside. -/
theorem robustSet_isOk (shards : Nat) (s : CacheState) (now : Int)
    (key : String) (v : PyVal) (expire : Option Int) (tag : Option String)
    {n : Int} (hk : parseHex4 key = some n) :
    ∃ s', robustSet shards s now key v expire tag = .ok s' := by
  unfold robustSet shardPath
  rw [hk]
  simp only [Option.map_some']
  by_cases hl : lockName key ∈ s.busy
  · rw [if_pos hl]
    exact ⟨_, rfl⟩
  · rw [if_neg hl]
    cases msgRT v with
    | none => exact ⟨_, rfl⟩
    | some rt =>
      cases tag with
      | none => exact ⟨_, rfl⟩
      | some t =>
        by_cases ht : t = ""
        · refine ⟨putEntry s key (.record ⟨rt, expireField expire now, some t, now⟩), ?_⟩
          simp [ht]
        · refine ⟨addToTag (putEntry s key
            (.record ⟨rt, expireField expire now, some t, now⟩)) t key, ?_⟩
          simp [ht]

/-- C10: a stored `None` is indistinguishable from a miss. `get(k)` after
`set(k, None)` returns `None` exactly as it does for an absent key; and a
`memoize`-wrapped function that returns `None` is (re-)invoked on every
call — in any state whose entry for the derived key holds nothing but a
`None` value, the wrapper invokes the function (`true` flag) and its
`None` result is never served from the cache. -/
theorem C10_none_indistinguishable (shards : Nat) (s : CacheState) (now now2 : Int)
    (key : String) {n : Int} (hk : parseHex4 key = some n)
    (hl : lockName key ∉ s.busy) {s1 : CacheState}
    (hset : robustSet shards s now key PyVal.none Option.none Option.none = .ok s1)
    (sA : CacheState) (hA : sA.entries key = Option.none)
    (funcName : String) (args : PyList) (kwargs : PyKVs) (f : PyList → PyVal)
    (hf : ∀ a, f a = PyVal.none) (expire : Int) (sM : CacheState)
    (hM : ∀ e, sM.entries (generateKey funcName args kwargs) = some (.record e) →
      e.value = PyVal.none) :
    robustGet shards s1 now2 key = .ok (PyVal.none, s1) ∧
    robustGet shards sA now2 key = .ok (PyVal.none, sA) ∧
    (∃ s2, memoizeCall shards sM now2 funcName args kwargs f expire Option.none =
      .ok (PyVal.none, s2, true)) := by
  refine ⟨?_, robustGet_absent shards sA now2 hk hA, ?_⟩
  · rw [robustSet_ok_noTag shards s now PyVal.none Option.none hk hl rfl] at hset
    cases hset
    exact robustGet_hit shards _ now2 hk (putEntry_entries_same s key _) hl rfl
  · obtain ⟨m, hm⟩ := parseHex4_generateKey funcName args kwargs
    unfold memoizeCall
    rcases robustGet_classify shards sM now2 (generateKey funcName args kwargs) hm with
      ⟨s', hget⟩ | ⟨e, hent, hget⟩
    · rw [hget]
      obtain ⟨s2, hsetok⟩ := robustSet_isOk shards s' now2
        (generateKey funcName args kwargs) (f args) (some expire) Option.none hm
      rw [hf args] at hsetok
      refine ⟨s2, ?_⟩
      simp only [hf args, hsetok]
    · rw [hget, hM e hent]
      obtain ⟨s2, hsetok⟩ := robustSet_isOk shards sM now2
        (generateKey funcName args kwargs) (f args) (some expire) Option.none hm
      rw [hf args] at hsetok
      refine ⟨s2, ?_⟩
      simp only [hf args, hsetok]

theorem C10_none_witness :
    robustGet 8 (putEntry (emptyState []) "abcd"
        (.record ⟨PyVal.none, expireField Option.none 100, Option.none, 100⟩)) 200 "abcd" =
      .ok (PyVal.none, putEntry (emptyState []) "abcd"
        (.record ⟨PyVal.none, expireField Option.none 100, Option.none, 100⟩)) ∧
    robustGet 8 (emptyState []) 200 "abcd" = .ok (PyVal.none, emptyState []) ∧
    (∃ s2, memoizeCall 8 (emptyState []) 200 "m.g" .nil .nil
        (fun _ => PyVal.none) 3600 Option.none = .ok (PyVal.none, s2, true)) :=
  C10_none_indistinguishable 8 (emptyState []) 100 200 "abcd" (n := 43981)
    rfl (by simp [emptyState]) rfl (emptyState []) rfl
    "m.g" .nil .nil (fun _ => PyVal.none) (fun _ => rfl) 3600 (emptyState [])
    (fun e h => Option.noConfusion h)

/-- Arguments containing an unserializable object, for the C7 scenario. -/
def c7Args : PyList := .cons (.obj 0) .nil

/-- The wrapped computation of the C7 scenario. -/
def c7f : PyList → PyVal := fun _ => .int 42

/-- Cache state after a first memoized call with unserializable arguments:
the fallback key holds the computed result `42`. -/
def c7State : CacheState :=
  match memoizeCall 8 (emptyState []) 100 "mod.f" c7Args .nil c7f 3600 Option.none with
  | .ok (_, s, _) => s
  | .error _ => emptyState []

/-- C7 counterexample: the claim says an unserializable logical identity
makes the lookup an *unconditional miss* (the memoized call always
recomputes). But `_generate_key` falls back to hashing
`str((func_name, args, kwargs))`, so the second call with the same
unserializable arguments finds the first call's cached result and returns
it *without* invoking the function (`false` flag) — the lookup succeeded. -/
theorem C7_fallback_counterexample :
    memoizeCall 8 c7State 100 "mod.f" c7Args .nil c7f 3600 Option.none =
      .ok (.int 42, c7State, false) := by
  rfl

/-- C7 (amended): when the logical identity cannot be msgpack-serialized,
the cache does not treat the lookup as an unconditional miss and does not
crash the caller: `_generate_key` silently (modulo a log line) substitutes
the `str()`-based key derivation, and a result previously cached under
that fallback key is served without re-invoking the function. -/
theorem C7_fallback_amended (shards : Nat) (s : CacheState) (now : Int)
    (funcName : String) (args : PyList) (kwargs : PyKVs) (f : PyList → PyVal)
    (expire : Int)
    (hid : msgRT (PyVal.tuple (.cons (.str funcName)
      (.cons (.tuple args) (.cons (.dict kwargs) .nil)))) = Option.none) :
    generateKey funcName args kwargs =
      hexEncodeS (pyRepr (PyVal.tuple (.cons (.str funcName)
        (.cons (.tuple args) (.cons (.dict kwargs) .nil))))) ∧
    (∀ e, s.entries (generateKey funcName args kwargs) = some (.record e) →
      lockName (generateKey funcName args kwargs) ∉ s.busy →
      expired e.expire now = false → e.value ≠ PyVal.none →
      memoizeCall shards s now funcName args kwargs f expire Option.none =
        .ok (e.value, s, false)) := by
  constructor
  · simp only [generateKey]
    rw [hid]
  · intro e he hl hx hne
    obtain ⟨m, hm⟩ := parseHex4_generateKey funcName args kwargs
    unfold memoizeCall
    rw [robustGet_hit shards s now hm he hl hx]
    cases hval : e.value
    case none => exact absurd hval hne
    all_goals rfl

/-- A state holding a previously cached result under the fallback key of
the identity `("mod.f", (obj,), {})` with the unserializable argument. -/
def c7wState : CacheState :=
  putEntry (emptyState []) (generateKey "mod.f" c7Args .nil)
    (.record ⟨PyVal.int 7, Option.none, Option.none, 0⟩)

theorem C7_fallback_witness :
    generateKey "mod.f" c7Args .nil =
      hexEncodeS (pyRepr (PyVal.tuple (.cons (.str "mod.f")
        (.cons (.tuple c7Args) (.cons (.dict .nil) .nil))))) ∧
    memoizeCall 8 c7wState 100 "mod.f" c7Args .nil c7f 3600 Option.none =
      .ok (PyVal.int 7, c7wState, false) := by
  have h := C7_fallback_amended 8 c7wState 100 "mod.f" c7Args .nil c7f 3600 rfl
  refine ⟨h.1, ?_⟩
  have h2 := h.2 ⟨PyVal.int 7, Option.none, Option.none, 0⟩ rfl
    (by simp [c7wState, putEntry, emptyState]) rfl
    (fun hh => PyVal.noConfusion hh)
  exact h2

/-! ## Projection lemmas for the C5 state computation -/

@[simp]
theorem putEntry_busy (s : CacheState) (key : String) (c : FileContent) :
    (putEntry s key c).busy = s.busy := rfl

@[simp]
theorem putEntry_tags (s : CacheState) (key : String) (c : FileContent) :
    (putEntry s key c).tags = s.tags := rfl

@[simp]
theorem putTag_busy (s : CacheState) (tag : String) (keys : List String) :
    (putTag s tag keys).busy = s.busy := rfl

@[simp]
theorem putTag_entries (s : CacheState) (tag : String) (keys : List String) :
    (putTag s tag keys).entries = s.entries := rfl

@[simp]
theorem logMsg_busy (s : CacheState) (m : String) : (logMsg s m).busy = s.busy := rfl

@[simp]
theorem logMsg_entries (s : CacheState) (m : String) :
    (logMsg s m).entries = s.entries := rfl

@[simp]
theorem logMsg_tags (s : CacheState) (m : String) : (logMsg s m).tags = s.tags := rfl

@[simp]
theorem eraseTag_entries (s : CacheState) (tag : String) :
    (eraseTag s tag).entries = s.entries := rfl

@[simp]
theorem eraseTag_busy (s : CacheState) (tag : String) :
    (eraseTag s tag).busy = s.busy := rfl

@[simp]
theorem emptyState_entries (busy : List String) (k : String) :
    (emptyState busy).entries k = Option.none := rfl

@[simp]
theorem emptyState_tags (busy : List String) (t : String) :
    (emptyState busy).tags t = Option.none := rfl

@[simp]
theorem emptyState_busy (busy : List String) : (emptyState busy).busy = busy := rfl

theorem putTag_tags_same (s : CacheState) (tag : String) (keys : List String) :
    (putTag s tag keys).tags tag = some keys := by simp [putTag]

theorem putTag_tags_other (s : CacheState) {tag t : String} (keys : List String)
    (h : t ≠ tag) : (putTag s tag keys).tags t = s.tags t := by simp [putTag, h]

theorem eraseTag_tags_same (s : CacheState) (tag : String) :
    (eraseTag s tag).tags tag = Option.none := by simp [eraseTag]

/-- When the tag lock is free, `_add_to_tag` loads the key set, inserts the
key and persists it. -/
theorem addToTag_free {s : CacheState} {tag : String} (key : String)
    (h : tagLockName tag ∉ s.busy) :
    addToTag s tag key = putTag s tag (insertKeyIfAbsent key ((s.tags tag).getD [])) := by
  unfold addToTag
  rw [if_neg h]

/-- An `invalidate_tag` on a tag whose index holds exactly the two (distinct,
parseable) keys `k1, k2`: both entry files are deleted, every other entry
file is untouched, the tag file is deleted, and the lock environment is
unchanged. -/
theorem robustInvalidateTag_two {s : CacheState} {T k1 k2 : String} {n1 n2 : Int}
    (htags : s.tags T = some [k1, k2]) (hlock : tagLockName T ∉ s.busy)
    (hp1 : parseHex4 k1 = some n1) (hp2 : parseHex4 k2 = some n2)
    (h12 : k1 ≠ k2) :
    (robustInvalidateTag s T).entries k1 = Option.none ∧
    (robustInvalidateTag s T).entries k2 = Option.none ∧
    (∀ x, x ≠ k1 → x ≠ k2 → (robustInvalidateTag s T).entries x = s.entries x) ∧
    (robustInvalidateTag s T).tags T = Option.none ∧
    (robustInvalidateTag s T).busy = s.busy := by
  unfold robustInvalidateTag
  simp only [htags]
  rw [if_neg hlock]
  have hunl : unlinkKeys [k1, k2] s.entries =
      (fun x => if x = k2 then Option.none
        else if x = k1 then Option.none else s.entries x, true) := by
    simp [unlinkKeys, hp1, hp2]
  simp only [hunl]
  refine ⟨by simp [eraseTag, logMsg, h12], by simp [eraseTag, logMsg], ?_, ?_, ?_⟩
  · intro x hx1 hx2
    simp [eraseTag, logMsg, hx1, hx2]
  · simp [eraseTag, logMsg]
  · simp [eraseTag, logMsg]

/-- When the queried tag differs from the one being updated, `_add_to_tag`
leaves that tag's index file unchanged on every path (lock timeout or
successful update). -/
theorem addToTag_tags_other {s : CacheState} {tag t : String} (key : String)
    (h : t ≠ tag) : (addToTag s tag key).tags t = s.tags t := by
  unfold addToTag
  split
  · rfl
  · exact putTag_tags_other _ _ h

/-- A successful `set` with the falsy empty-string tag: the record (with its
`tag` field) is written, but `if tag:` is false so the tag index is not
touched. -/
theorem robustSet_ok_falsyTag (shards : Nat) (s : CacheState) (now : Int)
    {key : String} {n : Int} (v : PyVal) {rt : PyVal} (expire : Option Int)
    (hk : parseHex4 key = some n) (hl : lockName key ∉ s.busy)
    (hv : msgRT v = some rt) :
    robustSet shards s now key v expire (some "") =
      .ok (putEntry s key (.record ⟨rt, expireField expire now, some "", now⟩)) := by
  unfold robustSet shardPath
  rw [hk]
  simp only [Option.map_some']
  rw [if_neg hl, hv]
  simp

/-- Projection view of any successful `set`, for an arbitrary `tag`
argument (absent, empty, or a real tag): the lock environment is
unchanged, the key's entry file holds the complete new record, no other
entry file is touched, and the index file of every tag other than the one
passed is unchanged. -/
theorem robustSet_ok_proj (shards : Nat) (s : CacheState) (now : Int)
    (key : String) {n : Int} (v : PyVal) {rt : PyVal} (expire : Option Int)
    (tag : Option String)
    (hk : parseHex4 key = some n) (hl : lockName key ∉ s.busy)
    (hv : msgRT v = some rt) {s1 : CacheState}
    (hset : robustSet shards s now key v expire tag = .ok s1) :
    s1.busy = s.busy ∧
    s1.entries key = some (.record ⟨rt, expireField expire now, tag, now⟩) ∧
    (∀ k, k ≠ key → s1.entries k = s.entries k) ∧
    (∀ t, tag ≠ some t → s1.tags t = s.tags t) := by
  cases tag with
  | none =>
    rw [robustSet_ok_noTag shards s now v expire hk hl hv] at hset
    injection hset with e
    refine ⟨by rw [← e]; simp, by rw [← e]; exact putEntry_entries_same s key _,
      fun k hkne => by rw [← e]; exact putEntry_entries_other s _ hkne,
      fun t _ => by rw [← e]; simp⟩
  | some tt =>
    by_cases htt : tt = ""
    · subst htt
      rw [robustSet_ok_falsyTag shards s now v expire hk hl hv] at hset
      injection hset with e
      refine ⟨by rw [← e]; simp, by rw [← e]; exact putEntry_entries_same s key _,
        fun k hkne => by rw [← e]; exact putEntry_entries_other s _ hkne,
        fun t _ => by rw [← e]; simp⟩
    · rw [robustSet_ok_tag shards s now v expire hk hl hv htt] at hset
      injection hset with e
      refine ⟨by rw [← e]; simp [addToTag_busy],
        by rw [← e, addToTag_entries]; exact putEntry_entries_same s key _,
        fun k hkne => by rw [← e, addToTag_entries]; exact putEntry_entries_other s _ hkne,
        fun t ht => ?_⟩
      have htne : t ≠ tt := fun hh => ht (by rw [hh])
      rw [← e, addToTag_tags_other key htne]
      simp

/-- C5: tag invalidation. Starting from an empty cache, after setting a
third key `k3` with any tag argument other than `T` (a different tag, no
tag at all, or the falsy empty tag), then `set(k1, v1, tag=T)`,
`set(k2, v2, tag=T)` and `invalidate_tag(T)`: both `get(k1)` and `get(k2)`
return a miss, the third key `k3` still returns its value, and the tag
index file for `T` is deleted. -/
theorem C5_tag_invalidation
    (k1 k2 k3 T : String) (tg3 : Option String) (n1 n2 n3 : Int)
    (v1 v2 v3 rt1 rt2 : PyVal) (now : Int)
    (hk1 : parseHex4 k1 = some n1) (hk2 : parseHex4 k2 = some n2)
    (hk3 : parseHex4 k3 = some n3)
    (h12 : k1 ≠ k2) (h31 : k3 ≠ k1) (h32 : k3 ≠ k2)
    (hT : T ≠ "") (h3T : tg3 ≠ some T)
    (hv1 : msgRT v1 = some rt1) (hv2 : msgRT v2 = some rt2) (hv3 : msgRT v3 = some v3)
    {s1 s2 s3 : CacheState}
    (h1 : robustSet 8 (emptyState []) now k3 v3 Option.none tg3 = .ok s1)
    (h2 : robustSet 8 s1 now k1 v1 Option.none (some T) = .ok s2)
    (h3 : robustSet 8 s2 now k2 v2 Option.none (some T) = .ok s3) :
    robustGet 8 (robustInvalidateTag s3 T) now k1 =
      .ok (PyVal.none, robustInvalidateTag s3 T) ∧
    robustGet 8 (robustInvalidateTag s3 T) now k2 =
      .ok (PyVal.none, robustInvalidateTag s3 T) ∧
    robustGet 8 (robustInvalidateTag s3 T) now k3 =
      .ok (v3, robustInvalidateTag s3 T) ∧
    (robustInvalidateTag s3 T).tags T = Option.none := by
  obtain ⟨hb1p, h1k3, h1oth, h1tags⟩ :=
    robustSet_ok_proj 8 (emptyState []) now k3 v3 Option.none tg3 hk3 (by simp) hv3 h1
  have hb1 : s1.busy = [] := by rw [hb1p]; simp
  have h1k2 : s1.entries k2 = Option.none := by
    rw [h1oth k2 (Ne.symm h32)]
    simp
  have htg1 : s1.tags T = Option.none := by
    rw [h1tags T h3T]
    simp
  rw [robustSet_ok_tag 8 s1 now v1 Option.none hk1 (by rw [hb1]; simp) hv1 hT] at h2
  injection h2 with e2
  have hb2 : s2.busy = [] := by rw [← e2]; simp [addToTag_busy, hb1]
  have h2k2 : s2.entries k2 = Option.none := by
    rw [← e2, addToTag_entries, putEntry_entries_other _ _ (Ne.symm h12)]
    exact h1k2
  have h2k3 : s2.entries k3 =
      some (.record ⟨v3, expireField Option.none now, tg3, now⟩) := by
    rw [← e2, addToTag_entries, putEntry_entries_other _ _ h31]
    exact h1k3
  have htg2 : s2.tags T = some [k1] := by
    rw [← e2, addToTag_free k1 (by simp [hb1]), putTag_tags_same]
    simp [putEntry_tags, htg1, insertKeyIfAbsent]
  rw [robustSet_ok_tag 8 s2 now v2 Option.none hk2 (by rw [hb2]; simp) hv2 hT] at h3
  injection h3 with e3
  have hb3 : s3.busy = [] := by rw [← e3]; simp [addToTag_busy, hb2]
  have h3k3 : s3.entries k3 =
      some (.record ⟨v3, expireField Option.none now, tg3, now⟩) := by
    rw [← e3, addToTag_entries, putEntry_entries_other _ _ h32]
    exact h2k3
  have htg3 : s3.tags T = some [k1, k2] := by
    rw [← e3, addToTag_free k2 (by simp [hb2]), putTag_tags_same]
    simp [putEntry_tags, htg2, insertKeyIfAbsent, Ne.symm h12]
  obtain ⟨i1, i2, i3, i4, i5⟩ :=
    robustInvalidateTag_two htg3 (by rw [hb3]; simp) hk1 hk2 h12
  have hbusy4 : lockName k3 ∉ (robustInvalidateTag s3 T).busy := by
    rw [i5, hb3]
    simp
  refine ⟨robustGet_absent 8 _ now hk1 i1, robustGet_absent 8 _ now hk2 i2, ?_, i4⟩
  have he4 : (robustInvalidateTag s3 T).entries k3 =
      some (.record ⟨v3, expireField Option.none now, tg3, now⟩) := by
    rw [i3 k3 h31 h32]
    exact h3k3
  exact robustGet_hit 8 _ now hk3 he4 hbusy4 rfl

/-- State after `set("cccc", 3, tag="t2")` on an empty cache at time 100. -/
def c5s1 : CacheState :=
  match robustSet 8 (emptyState []) 100 "cccc" (PyVal.int 3) Option.none (some "t2") with
  | .ok s => s
  | .error _ => emptyState []

/-- State after the further `set("aaaa", 1, tag="t1")`. -/
def c5s2 : CacheState :=
  match robustSet 8 c5s1 100 "aaaa" (PyVal.int 1) Option.none (some "t1") with
  | .ok s => s
  | .error _ => emptyState []

/-- State after the further `set("bbbb", 2, tag="t1")`. -/
def c5s3 : CacheState :=
  match robustSet 8 c5s2 100 "bbbb" (PyVal.int 2) Option.none (some "t1") with
  | .ok s => s
  | .error _ => emptyState []

/-- State after `set("cccc", 3)` (no tag) on an empty cache at time 100. -/
def c5n1 : CacheState :=
  match robustSet 8 (emptyState []) 100 "cccc" (PyVal.int 3) Option.none Option.none with
  | .ok s => s
  | .error _ => emptyState []

/-- State after the further `set("aaaa", 1, tag="t1")` (untagged-third-key
chain). -/
def c5n2 : CacheState :=
  match robustSet 8 c5n1 100 "aaaa" (PyVal.int 1) Option.none (some "t1") with
  | .ok s => s
  | .error _ => emptyState []

/-- State after the further `set("bbbb", 2, tag="t1")` (untagged-third-key
chain). -/
def c5n3 : CacheState :=
  match robustSet 8 c5n2 100 "bbbb" (PyVal.int 2) Option.none (some "t1") with
  | .ok s => s
  | .error _ => emptyState []

theorem C5_tag_invalidation_witness :
    (robustGet 8 (robustInvalidateTag c5s3 "t1") 100 "aaaa" =
        .ok (PyVal.none, robustInvalidateTag c5s3 "t1") ∧
      robustGet 8 (robustInvalidateTag c5s3 "t1") 100 "bbbb" =
        .ok (PyVal.none, robustInvalidateTag c5s3 "t1") ∧
      robustGet 8 (robustInvalidateTag c5s3 "t1") 100 "cccc" =
        .ok (PyVal.int 3, robustInvalidateTag c5s3 "t1") ∧
      (robustInvalidateTag c5s3 "t1").tags "t1" = Option.none) ∧
    (robustGet 8 (robustInvalidateTag c5n3 "t1") 100 "aaaa" =
        .ok (PyVal.none, robustInvalidateTag c5n3 "t1") ∧
      robustGet 8 (robustInvalidateTag c5n3 "t1") 100 "bbbb" =
        .ok (PyVal.none, robustInvalidateTag c5n3 "t1") ∧
      robustGet 8 (robustInvalidateTag c5n3 "t1") 100 "cccc" =
        .ok (PyVal.int 3, robustInvalidateTag c5n3 "t1") ∧
      (robustInvalidateTag c5n3 "t1").tags "t1" = Option.none) :=
  ⟨C5_tag_invalidation "aaaa" "bbbb" "cccc" "t1" (some "t2") 43690 48059 52428
    (PyVal.int 1) (PyVal.int 2) (PyVal.int 3) (PyVal.int 1) (PyVal.int 2) 100
    rfl rfl rfl
    (by decide) (by decide) (by decide)
    (by decide) (by decide)
    rfl rfl rfl
    rfl rfl rfl,
  C5_tag_invalidation "aaaa" "bbbb" "cccc" "t1" Option.none 43690 48059 52428
    (PyVal.int 1) (PyVal.int 2) (PyVal.int 3) (PyVal.int 1) (PyVal.int 2) 100
    rfl rfl rfl
    (by decide) (by decide) (by decide)
    (by decide) (by decide)
    rfl rfl rfl
    rfl rfl rfl⟩
